import Mathlib

/-!
Verification of the pygob gob decoder/encoder (files `pygob/__init__.py`,
`pygob/loader.py`, `pygob/types.py`, `pygob/dumper.py`).

Shallow embedding conventions:
* a Python `bytes` value is a `List Nat` (each entry < 256 for real inputs);
* Python exceptions (`IndexError`, `struct.error`, `AssertionError`,
  `NotImplementedError`, `KeyError`, `ValueError`, `TypeError`) are all
  modelled as `none` of an `Option` result;
* Python `float` values are represented by their IEEE-754 64-bit pattern
  (the `Nat` obtained by reading the 8 little-endian bytes of
  `struct.pack('<d', f)` as an unsigned integer);
* Python `str` values (struct/field names) are represented by their UTF-8
  byte sequences (`List Nat`); the `.decode('utf-8')` steps in the source
  are therefore the identity in the model.
-/

/-- UTF-8 bytes of an ASCII string literal, used for the bootstrap names. -/
def strBytes (s : String) : List Nat := s.data.map Char.toNat

/-! ## Type ids (types.py lines 13-29) -/

def BOOL : Int := 1
def INT : Int := 2
def UINT : Int := 3
def FLOAT : Int := 4
def BYTE_SLICE : Int := 5
def STRING : Int := 6
def COMPLEX : Int := 7
def INTERFACE : Int := 8
def WIRE_TYPE : Int := 16
def ARRAY_TYPE : Int := 17
def COMMON_TYPE : Int := 18
def SLICE_TYPE : Int := 19
def STRUCT_TYPE : Int := 20
def FIELD_TYPE : Int := 21
def FIELD_TYPE_SLICE : Int := 22
def MAP_TYPE : Int := 23

/-! ## The unsigned varint codec (types.py `GoUint`, identical in loader.py
and `decode_uint` of `__init__.py`: the `struct.unpack('b', ...)` sign test
there is the same as the `buf[0] < 128` test here). -/

/-- `GoUint.decode` (types.py lines 92-111).  `buf[0] < 128` is a one-byte
value.  Otherwise `length = 256 - buf[0]` further bytes follow, big-endian:
Python folds `n = (n + b) << 8` over `buf[1:length]` and finally adds
`buf[length]`.  `buf[1:length]` silently truncates, but `buf[length]`
raises `IndexError` (here: `none`) when fewer than `length + 1` bytes are
available. -/
def goUintDecode : List Nat → Option (Nat × List Nat)
  | [] => none
  | b0 :: rest =>
    if b0 < 128 then
      some (b0, rest)
    else
      let length := 256 - b0
      match rest.get? (length - 1) with
      | none => none
      | some last =>
        some ((rest.take (length - 1)).foldl (fun n b => (n + b) * 256) 0 + last,
              rest.drop length)

/-- The little-endian base-256 digit list of `n` (the `while n:` loop of
`GoUint.encode`, types.py lines 127-130: repeatedly append `n & 0xFF` and
shift `n >>= 8`). -/
def natDigitsLE (n : Nat) : List Nat :=
  if h : n = 0 then [] else n % 256 :: natDigitsLE (n / 256)
  decreasing_by exact Nat.div_lt_self (Nat.pos_of_ne_zero h) (by norm_num)

/-- `GoUint.encode` (types.py lines 113-132).  One byte below 128;
otherwise the little-endian digits plus the byte `256 - len(digits)`,
reversed.  The Python function raises `ValueError` on negative input
(excluded here by the `Nat` domain) and would only fail in `bytes(...)`
for numbers of more than 256 digits (`n ≥ 256^256`), far beyond the
64-bit values of the protocol. -/
def goUintEncode (n : Nat) : List Nat :=
  if n < 128 then [n]
  else (256 - (natDigitsLE n).length) :: (natDigitsLE n).reverse

/-! ## The signed varint codec (types.py `GoInt`; `decode_int` of
`__init__.py` computes `~(uint >> 1)` in the odd case, which agrees with
`(~uint) >> 1` used here). -/

/-- `GoInt.decode` (types.py lines 144-157): fetch an unsigned varint; if
its low bit is set take the bitwise complement (`~u = -u-1`); arithmetic
shift right by one.  Python `>>` is floor division by 2, which for the
positive divisor 2 agrees with Lean's Euclidean `Int` division. -/
def goIntDecode (buf : List Nat) : Option (Int × List Nat) :=
  match goUintDecode buf with
  | none => none
  | some (u, rest) =>
    let v : Int := if u % 2 = 1 then -(u : Int) - 1 else (u : Int)
    some (v / 2, rest)

/-- `GoInt.encode` (types.py lines 159-172): `(~n << 1) | 1` for negative
`n` (note `~n = -n-1 ≥ 0`, so the `| 1` just adds one to an even number),
`n << 1` otherwise. -/
def goIntEncode (n : Int) : List Nat :=
  goUintEncode (if n < 0 then ((-n - 1) * 2 + 1).toNat else (n * 2).toNat)

/-! ## The remaining primitive codecs -/

/-- `GoBool.decode` (types.py lines 58-69): the value is `uint == 1`. -/
def goBoolDecode (buf : List Nat) : Option (Bool × List Nat) :=
  match goUintDecode buf with
  | none => none
  | some (n, rest) => some (n == 1, rest)

/-- `GoBool.encode` (types.py lines 71-80): `GoUint.encode(int(b))`. -/
def goBoolEncode (b : Bool) : List Nat :=
  goUintEncode (if b then 1 else 0)

/-- Reverse the 8 bytes of a 64-bit word: `n`'s little-endian bytes read
back in big-endian order.  This is the effect of the
`pack('>Q', n)` / `unpack('<d', ...)` pair in `GoFloat` (and of the
`reversed(struct.pack('L', n))` in the loader.py / `__init__.py`
snapshots on a 64-bit little-endian platform). -/
def bswap64 (n : Nat) : Nat :=
  ((List.range 8).foldl (fun p _ => (p.1 * 256 + p.2 % 256, p.2 / 256)) (0, n)).1

/-- `GoFloat.decode` (types.py lines 184-197): read an unsigned varint
(`struct.pack('>Q', n)` raises for `n ≥ 2^64`), byte-reverse it and
reinterpret as a float64; the result is kept as its bit pattern. -/
def goFloatDecode (buf : List Nat) : Option (Nat × List Nat) :=
  match goUintDecode buf with
  | none => none
  | some (n, rest) => if n < 2 ^ 64 then some (bswap64 n, rest) else none

/-- `GoFloat.encode` (types.py lines 199-227): byte-reverse the IEEE
pattern and emit it as an unsigned varint. -/
def goFloatEncode (bits : Nat) : List Nat :=
  goUintEncode (bswap64 bits)

/-- `GoByteSlice.decode` (types.py lines 243-252): a varint count, then
`buf[:count]` and `buf[count:]`.  Python slicing silently truncates when
fewer than `count` bytes remain — no error is raised. -/
def goByteSliceDecode (buf : List Nat) : Option (List Nat × List Nat) :=
  match goUintDecode buf with
  | none => none
  | some (count, rest) => some (rest.take count, rest.drop count)

/-- `GoByteSlice.encode` (types.py lines 254-261). -/
def goByteSliceEncode (bs : List Nat) : List Nat :=
  goUintEncode bs.length ++ bs

/-- `GoString.decode` (types.py lines 274-286): identical to the byte
slice decoder (the bytes are returned raw). -/
def goStringDecode (buf : List Nat) : Option (List Nat × List Nat) :=
  match goUintDecode buf with
  | none => none
  | some (count, rest) => some (rest.take count, rest.drop count)

/-- `GoString.encode` (types.py lines 288-297): UTF-8 encode (identity on
the byte representation used here) and emit as a byte slice. -/
def goStringEncode (s : List Nat) : List Nat :=
  goByteSliceEncode s

/-- `GoComplex.decode` (types.py lines 309-319): two floats, real first. -/
def goComplexDecode (buf : List Nat) : Option ((Nat × Nat) × List Nat) :=
  match goFloatDecode buf with
  | none => none
  | some (re, rest) =>
    match goFloatDecode rest with
    | none => none
    | some (im, rest') => some ((re, im), rest')

/-- `GoComplex.encode` (types.py lines 321-328). -/
def goComplexEncode (re im : Nat) : List Nat :=
  goFloatEncode re ++ goFloatEncode im

/-! ## Decoders and decoded values

`GoType` is the closed universe of decoder shapes the loader can host
(the `GoType` subclasses of loader.py; compound decoders reference their
element/field types by type id through the registry, exactly as the
Python objects hold `self._loader` plus a type id). -/

inductive GoType : Type where
  | bool | uint | int | float | byteSlice | string | complex
  | struct (name : List Nat) (fields : List (List Nat × Int))
  | wire (name : List Nat) (fields : List (List Nat × Int))
  | array (elem : Int) (length : Int)
  | slice (elem : Int)
  | map (key : Int) (elem : Int)
  deriving DecidableEq

/-- The heterogeneous results of decoding: Python bool / int / float /
bytearray / bytes / complex / namedtuple / tuple / list / dict, plus the
`GoType` objects returned by `GoWireType.decode`.  Byte slices
(`bytearray`) and strings (`bytes`) are kept distinct, matching the two
Python classes; Python's `bytearray(b'x') == b'x'` never mixes the two
here because every comparison in the source compares values decoded by
the same field type. -/
inductive GobValue : Type where
  | bool (b : Bool)
  | int (i : Int)
  | uint (n : Nat)
  | float (bits : Nat)
  | bytes (bs : List Nat)
  | str (bs : List Nat)
  | complex (re im : Nat)
  | record (name : List Nat) (fields : List (List Nat × GobValue))
  | tuple (vs : List GobValue)
  | list (vs : List GobValue)
  | mapv (kvs : List (GobValue × GobValue))
  | decoder (t : GoType)

mutual

/-- Python `==` on decoded values (used by `!=` in `GoWireType.decode` and
for dict keys).  Structural; namedtuple equality in Python ignores the
class name, but every comparison performed by the source compares records
of the same class, where the two notions agree. -/
def gvBeq : GobValue → GobValue → Bool
  | .bool a, .bool b => a == b
  | .int a, .int b => a == b
  | .uint a, .uint b => a == b
  | .float a, .float b => a == b
  | .bytes a, .bytes b => a == b
  | .str a, .str b => a == b
  | .complex a b, .complex c d => a == c && b == d
  | .record n fs, .record m gs => n == m && gfBeq fs gs
  | .tuple xs, .tuple ys => glBeq xs ys
  | .list xs, .list ys => glBeq xs ys
  | .mapv xs, .mapv ys => gpBeq xs ys
  | .decoder a, .decoder b => a == b
  | _, _ => false
  termination_by structural v _ => v

def gfBeq : List (List Nat × GobValue) → List (List Nat × GobValue) → Bool
  | [], [] => true
  | (n, v) :: xs, (m, w) :: ys => n == m && gvBeq v w && gfBeq xs ys
  | _, _ => false

def glBeq : List GobValue → List GobValue → Bool
  | [], [] => true
  | v :: xs, w :: ys => gvBeq v w && glBeq xs ys
  | _, _ => false

def gpBeq : List (GobValue × GobValue) → List (GobValue × GobValue) → Bool
  | [], [] => true
  | (k, v) :: xs, (l, w) :: ys => gvBeq k l && gvBeq v w && gpBeq xs ys
  | _, _ => false

end

/-- Attribute access `record.name` on a decoded namedtuple. -/
def getField : GobValue → List Nat → Option GobValue
  | .record _ fs, nm => fs.lookup nm
  | _, _ => none

/-- The registry `self.types`: a mutable mapping from type id to decoder
(`Loader.__init__`, loader.py lines 47-63).  Modelled as an association
list; `regSet` prepends, which gives the same lookup behaviour as the
overwriting `self.types[-typeid] = custom_type`. -/
def Registry : Type := List (Int × GoType)

def regLookup (reg : Registry) (tid : Int) : Option GoType :=
  List.lookup tid reg

def regSet (reg : Registry) (tid : Int) (t : GoType) : Registry :=
  (tid, t) :: reg

/-! ## Zero values (the `zero` properties of the decoder classes) -/

mutual

/-- Zero of each decoder shape, with `Z` resolving field/element type ids
through the registry (`self._loader.types[t].zero`). -/
def zeroTypeStep (Z : Int → Option GobValue) : GoType → Option GobValue
  | .bool => some (.bool false)
  | .uint => some (.uint 0)
  | .int => some (.int 0)
  | .float => some (.float 0)
  | .byteSlice => some (.bytes [])
  | .string => some (.str [])
  | .complex => some (.complex 0 0)
  | .struct nm fields =>
    match zeroFieldsD Z fields with
    | none => none
    | some zfs => some (.record nm zfs)
  | .wire nm fields =>
    match zeroFieldsD Z fields with
    | none => none
    | some zfs => some (.record nm zfs)
  | .array elem length =>
    match Z elem with
    | none => none
    | some z => some (.tuple (List.replicate length.toNat z))
  | .slice _ => some (.list [])
  | .map _ _ => some (.mapv [])

/-- The field-wise zeros of a struct (`GoStruct.zero`). -/
def zeroFieldsD (Z : Int → Option GobValue) : List (List Nat × Int) → Option (List (List Nat × GobValue))
  | [] => some []
  | (nm, tid) :: rest =>
    match Z tid with
    | none => none
    | some z =>
      match zeroFieldsD Z rest with
      | none => none
      | some zs => some ((nm, z) :: zs)

end

/-- `self._loader.types[tid].zero`, with fuel bounding the recursion depth
(a self-referential struct would make the Python property recurse
forever). -/
def zeroTidD (fuel : Nat) (reg : Registry) : Int → Option GobValue :=
  Nat.rec (motive := fun _ => Int → Option GobValue)
    (fun _ => none)
    (fun _f ih tid =>
      match regLookup reg tid with
      | none => none
      | some t => zeroTypeStep ih t)
    fuel

/-! ## Value decoding -/

/-- Python dict assignment `values[name] = value` (`GoStruct.decode`). -/
def dictInsert : List (List Nat × GobValue) → List Nat → GobValue → List (List Nat × GobValue)
  | [], k, v => [(k, v)]
  | (k', v') :: rest, k, v =>
    if k' == k then (k', v) :: rest else (k', v') :: dictInsert rest k v

/-- `self.zero._replace(**values)`: each field keeps its zero unless the
decode loop collected a value for its name. -/
def replaceFields (zfs vals : List (List Nat × GobValue)) : List (List Nat × GobValue) :=
  zfs.map (fun nz => (nz.1, match vals.lookup nz.1 with | some v => v | none => nz.2))

/-- The field-delta loop of `GoStruct.decode` (types.py lines 362-374,
identical in loader.py lines 211-223): read a delta; zero terminates;
otherwise advance the field index, decode a value of the field's type via
`D` and record it under the field's name.  The loop fuel `lf` bounds the
number of iterations.  `fieldId' < 0` is unreachable (the index starts at
-1 and every delta is at least 1); Python would index from the end of the
list there. -/
def structLoopD (D : Int → List Nat → Option (GobValue × List Nat)) :
    Nat → List (List Nat × Int) → Int → List (List Nat × GobValue) → List Nat →
    Option (List (List Nat × GobValue) × List Nat)
  | 0, _, _, _, _ => none
  | lf + 1, fields, fieldId, vals, buf =>
    match goUintDecode buf with
    | none => none
    | some (delta, buf1) =>
      if delta = 0 then some (vals, buf1)
      else
        let fieldId' : Int := fieldId + (delta : Int)
        if fieldId' < 0 then none
        else
          match fields.get? fieldId'.toNat with
          | none => none
          | some (nm, tid) =>
            match D tid buf1 with
            | none => none
            | some (v, buf2) => structLoopD D lf fields fieldId' (dictInsert vals nm v) buf2

/-- The element loop shared by `GoArray.decode` and `GoSlice.decode`:
`count` back-to-back element decodings. -/
def seqLoopD (DE : List Nat → Option (GobValue × List Nat)) :
    Nat → List Nat → Option (List GobValue × List Nat)
  | 0, buf => some ([], buf)
  | c + 1, buf =>
    match DE buf with
    | none => none
    | some (v, buf1) =>
      match seqLoopD DE c buf1 with
      | none => none
      | some (vs, rest) => some (v :: vs, rest)

/-- Python dict assignment `result[key] = value` in `GoMap.decode`. -/
def pyMapInsert : List (GobValue × GobValue) → GobValue → GobValue → List (GobValue × GobValue)
  | [], k, v => [(k, v)]
  | (k', v') :: rest, k, v =>
    if gvBeq k' k then (k', v) :: rest else (k', v') :: pyMapInsert rest k v

/-- The pair loop of `GoMap.decode`: `count` key/value pairs. -/
def mapLoopD (DK DV : List Nat → Option (GobValue × List Nat)) :
    Nat → List (GobValue × GobValue) → List Nat → Option (List (GobValue × GobValue) × List Nat)
  | 0, kvs, buf => some (kvs, buf)
  | c + 1, kvs, buf =>
    match DK buf with
    | none => none
    | some (k, buf1) =>
      match DV buf1 with
      | none => none
      | some (v, buf2) => mapLoopD DK DV c (pyMapInsert kvs k v) buf2

/-- `GoWireType.decode` of loader.py (lines 227-245): after the generic
struct decode, inspect the record.  This snapshot handles only
`ArrayT` / `SliceT` / `MapT` — there is NO struct case — and for arrays
takes the element type from `ArrayT.Elem` and length from `ArrayT.Len`.
An all-default record raises `NotImplementedError` ("cannot handle"). -/
def wireResolveL (Z : Int → Option GobValue) (w : GobValue) : Option GoType :=
  match getField w (strBytes ("ArrayT")) with
  | none => none
  | some aT =>
    match Z ARRAY_TYPE with
    | none => none
    | some az =>
      if gvBeq aT az then
        match getField w (strBytes ("SliceT")) with
        | none => none
        | some sT =>
          match Z SLICE_TYPE with
          | none => none
          | some sz =>
            if gvBeq sT sz then
              match getField w (strBytes ("MapT")) with
              | none => none
              | some mT =>
                match Z MAP_TYPE with
                | none => none
                | some mz =>
                  if gvBeq mT mz then none
                  else
                    match getField mT (strBytes ("Key")), getField mT (strBytes ("Elem")) with
                    | some (.int key), some (.int elem) => some (.map key elem)
                    | _, _ => none
            else
              match getField sT (strBytes ("Elem")) with
              | some (.int elem) => some (.slice elem)
              | _ => none
      else
        match getField aT (strBytes ("Elem")), getField aT (strBytes ("Len")) with
        | some (.int elem), some (.int length) => some (.array elem length)
        | _, _ => none

/-- One unfolding of `Loader.decode_value`'s dispatch: decode a value of
shape `t`, using `D` for nested values and `Z` for zero values, with `lf`
bounding the field-delta loop. -/
def decodeTypeStep (lf : Nat) (D : Int → List Nat → Option (GobValue × List Nat))
    (Z : Int → Option GobValue) : GoType → List Nat → Option (GobValue × List Nat)
  | .bool, buf =>
    match goBoolDecode buf with
    | none => none
    | some (b, rest) => some (.bool b, rest)
  | .uint, buf =>
    match goUintDecode buf with
    | none => none
    | some (n, rest) => some (.uint n, rest)
  | .int, buf =>
    match goIntDecode buf with
    | none => none
    | some (i, rest) => some (.int i, rest)
  | .float, buf =>
    match goFloatDecode buf with
    | none => none
    | some (bits, rest) => some (.float bits, rest)
  | .byteSlice, buf =>
    match goByteSliceDecode buf with
    | none => none
    | some (bs, rest) => some (.bytes bs, rest)
  | .string, buf =>
    match goStringDecode buf with
    | none => none
    | some (bs, rest) => some (.str bs, rest)
  | .complex, buf =>
    match goComplexDecode buf with
    | none => none
    | some (z, rest) => some (.complex z.1 z.2, rest)
  | .struct nm fields, buf =>
    match structLoopD D lf fields (-1) [] buf with
    | none => none
    | some (vals, rest) =>
      match zeroFieldsD Z fields with
      | none => none
      | some zfs => some (.record nm (replaceFields zfs vals), rest)
  | .wire nm fields, buf =>
    match structLoopD D lf fields (-1) [] buf with
    | none => none
    | some (vals, rest) =>
      match zeroFieldsD Z fields with
      | none => none
      | some zfs =>
        match wireResolveL Z (.record nm (replaceFields zfs vals)) with
        | none => none
        | some t => some (.decoder t, rest)
  | .array elem length, buf =>
    match goUintDecode buf with
    | none => none
    | some (count, rest) =>
      if (count : Int) = length then
        match seqLoopD (D elem) count rest with
        | none => none
        | some (vs, rest') => some (.tuple vs, rest')
      else none
  | .slice elem, buf =>
    match goUintDecode buf with
    | none => none
    | some (count, rest) =>
      match seqLoopD (D elem) count rest with
      | none => none
      | some (vs, rest') => some (.list vs, rest')
  | .map key elem, buf =>
    match goUintDecode buf with
    | none => none
    | some (count, rest) =>
      match mapLoopD (D key) (D elem) count [] rest with
      | none => none
      | some (kvs, rest') => some (.mapv kvs, rest')

/-- `Loader.decode_value` (loader.py lines 81-85): look the type id up in
the registry (`NotImplementedError` when absent) and decode, with `fuel`
bounding recursion depth and loop lengths. -/
def decodeD (fuel : Nat) (reg : Registry) : Int → List Nat → Option (GobValue × List Nat) :=
  Nat.rec (motive := fun _ => Int → List Nat → Option (GobValue × List Nat))
    (fun _ _ => none)
    (fun f ih tid buf =>
      match regLookup reg tid with
      | none => none
      | some t => decodeTypeStep f ih (zeroTidD f reg) t buf)
    fuel

/-! ## The bootstrap registry (`Loader.__init__`, loader.py lines 10-63) -/

def commonTypeFields : List (List Nat × Int) :=
  [(strBytes ("Name"), STRING), (strBytes ("Id"), INT)]

def arrayTypeFields : List (List Nat × Int) :=
  [(strBytes ("CommonType"), COMMON_TYPE), (strBytes ("Elem"), INT), (strBytes ("Len"), INT)]

def sliceTypeFields : List (List Nat × Int) :=
  [(strBytes ("CommonType"), COMMON_TYPE), (strBytes ("Elem"), INT)]

/-- `struct_type` declares its `Field` member with type `INT`; the source
carries the comment `TODO: 22 is slice of fieldType.` right below it. -/
def structTypeFields : List (List Nat × Int) :=
  [(strBytes ("CommonType"), COMMON_TYPE), (strBytes ("Field"), INT)]

def fieldTypeFields : List (List Nat × Int) :=
  [(strBytes ("Name"), STRING), (strBytes ("Id"), INT)]

def mapTypeFields : List (List Nat × Int) :=
  [(strBytes ("CommonType"), COMMON_TYPE), (strBytes ("Key"), INT), (strBytes ("Elem"), INT)]

def wireTypeFields : List (List Nat × Int) :=
  [(strBytes ("ArrayT"), ARRAY_TYPE), (strBytes ("SliceT"), SLICE_TYPE),
   (strBytes ("StructT"), STRUCT_TYPE), (strBytes ("MapT"), MAP_TYPE)]

/-- The `self.types` dictionary built by `Loader.__init__` (loader.py
lines 47-63), in source order.  Between `FIELD_TYPE` and `MAP_TYPE` the
source has only the comment `# 22 is slice of fieldType.` — no entry is
registered under `FIELD_TYPE_SLICE` (22). -/
def bootTypes : Registry :=
  [(INT, .int), (UINT, .uint), (BOOL, .bool), (FLOAT, .float),
   (BYTE_SLICE, .byteSlice), (STRING, .string), (COMPLEX, .complex),
   (WIRE_TYPE, .wire (strBytes ("WireType")) wireTypeFields),
   (ARRAY_TYPE, .struct (strBytes ("ArrayType")) arrayTypeFields),
   (COMMON_TYPE, .struct (strBytes ("CommonType")) commonTypeFields),
   (SLICE_TYPE, .struct (strBytes ("SliceType")) sliceTypeFields),
   (STRUCT_TYPE, .struct (strBytes ("StructType")) structTypeFields),
   (FIELD_TYPE, .struct (strBytes ("FieldType")) fieldTypeFields),
   (MAP_TYPE, .struct (strBytes ("MapType")) mapTypeFields)]

/-! ## The stream interpreter -/

/-- `Loader.load` (loader.py lines 65-79), with fuel bounding the number
of registration segments and the decode depth.  Each iteration reads the
declared segment length and DISCARDS it, then a signed type id.  A
positive id is a value: the code unconditionally drops one byte
(`buf[1:]`, flagged `TODO: why must we skip a zero byte here?`), decodes,
and asserts that NOTHING remains (`assert buf == b''`, "trailing
garbage").  A non-positive id registers the decoded wire type under
`-typeid` and loops. -/
def loadFuel : Nat → Registry → List Nat → Option GobValue
  | 0, _, _ => none
  | f + 1, reg, buf =>
    match goUintDecode buf with
    | none => none
    | some (_length, buf1) =>
      match goIntDecode buf1 with
      | none => none
      | some (tid, buf2) =>
        if 0 < tid then
          match decodeD f reg tid (buf2.drop 1) with
          | some (v, []) => some v
          | _ => none
        else
          match decodeD f reg WIRE_TYPE buf2 with
          | some (.decoder t, buf3) => loadFuel f (regSet reg (-tid) t) buf3
          | _ => none

/-- The `decode_value` dispatch of `__init__.py` (lines 72-85), reachable
only for the six implemented primitive ids; every other id raises
(`ValueError` from the `TypeID` conversion or `NotImplementedError`). -/
def initDecodeValue (tid : Int) (buf : List Nat) : Option (GobValue × List Nat) :=
  if tid = INT then
    match goIntDecode buf with
    | none => none
    | some (i, rest) => some (.int i, rest)
  else if tid = UINT then
    match goUintDecode buf with
    | none => none
    | some (n, rest) => some (.uint n, rest)
  else if tid = BOOL then
    match goBoolDecode buf with
    | none => none
    | some (b, rest) => some (.bool b, rest)
  else if tid = FLOAT then
    match goFloatDecode buf with
    | none => none
    | some (bits, rest) => some (.float bits, rest)
  else if tid = BYTE_SLICE then
    match goByteSliceDecode buf with
    | none => none
    | some (bs, rest) => some (.bytes bs, rest)
  else if tid = STRING then
    match goStringDecode buf with
    | none => none
    | some (bs, rest) => some (.str bs, rest)
  else none

/-- `load` of `__init__.py` (lines 88-100): read the declared length and
assert it equals the size of the REST of the buffer; negative ids raise;
one byte is skipped unconditionally before the value decode, and any
bytes the value decode leaves over are silently discarded. -/
def initLoad (buf : List Nat) : Option GobValue :=
  match goUintDecode buf with
  | none => none
  | some (length, buf1) =>
    if buf1.length = length then
      match goIntDecode buf1 with
      | none => none
      | some (tid, buf2) =>
        if tid < 0 then none
        else
          match initDecodeValue tid (buf2.drop 1) with
          | none => none
          | some (v, _rest) => some v
    else none

/-! ## The encoder (`Dumper`, dumper.py) -/

/-- The Python values `Dumper.dump` accepts, one constructor per entry of
the `self.types` mapping (dumper.py lines 9-16); `type(value)` is exact,
so `True` is a `bool`, never an `int`.  Floats are carried as IEEE bit
patterns, strings as their UTF-8 bytes. -/
inductive PyValue : Type where
  | bool (b : Bool)
  | int (i : Int)
  | float (bits : Nat)
  | bytes (bs : List Nat)
  | str (s : List Nat)
  | complex (re im : Nat)
  deriving DecidableEq

/-- The `typeid` attribute of the `GoType` class selected for a value. -/
def pyTid : PyValue → Int
  | .bool _ => BOOL
  | .int _ => INT
  | .float _ => FLOAT
  | .bytes _ => BYTE_SLICE
  | .str _ => STRING
  | .complex _ _ => COMPLEX

/-- The `go_type.encode(value)` payload for a value. -/
def pyEncode : PyValue → List Nat
  | .bool b => goBoolEncode b
  | .int i => goIntEncode i
  | .float bits => goFloatEncode bits
  | .bytes bs => goByteSliceEncode bs
  | .str s => goStringEncode s
  | .complex re im => goComplexEncode re im

/-- `Dumper._dump` (dumper.py lines 21-35): write the signed type id;
`self.types` maps every supported type to one of the static primitive
classes, and `isinstance(go_type, GoStruct)` is false for all of them, so
the extra zero byte is always written; then the payload.  The segment is
prefixed with its length (`segment.tell()`). -/
def dump (v : PyValue) : List Nat :=
  let body := goIntEncode (pyTid v) ++ [0] ++ pyEncode v
  goUintEncode body.length ++ body

/-! ## `GoWireType.decode` of types.py (lines 394-425)

This is the newer resolver, which also handles the struct case.  It is
kept separate from `wireResolveL` above because the `Loader` of this
snapshot instantiates only the loader.py classes.  The results mirror the
constructor calls `GoArray(typeid, loader, elem, length)` etc., `typeid`
being `CommonType.Id` of the chosen sub-descriptor. -/

inductive TGoType : Type where
  | array (typeid elem length : Int)
  | slice (typeid elem : Int)
  | struct (typeid : Int) (name : List Nat) (fields : List (List Nat × Int))
  | map (typeid key elem : Int)
  deriving DecidableEq

/-- `common.Id` for a sub-descriptor record. -/
def commonId (v : GobValue) : Option Int :=
  match getField v (strBytes ("CommonType")) with
  | some c =>
    match getField c (strBytes ("Id")) with
    | some (.int i) => some i
    | _ => none
  | _ => none

/-- The list comprehension `[(f.Name.decode('utf-8'), f.Id) for f in
wire_type.StructT.Field]`: `Field` must be an iterable of field records
(anything else, e.g. the `int` the bootstrap registry of this snapshot
would produce, raises `TypeError`). -/
def fieldEntriesAux : List GobValue → Option (List (List Nat × Int))
  | [] => some []
  | f :: rest =>
    match getField f (strBytes ("Name")), getField f (strBytes ("Id")) with
    | some (.str nm), some (.int i) =>
      match fieldEntriesAux rest with
      | none => none
      | some es => some ((nm, i) :: es)
    | _, _ => none

def fieldEntries : GobValue → Option (List (List Nat × Int))
  | .list vs => fieldEntriesAux vs
  | _ => none

/-- The resolution step of types.py `GoWireType.decode`: test `ArrayT`,
`SliceT`, `StructT`, `MapT` in that order against their zero values and
build the decoder for the FIRST non-default sub-field; raise
`NotImplementedError` ("cannot handle ...") when all four are default. -/
def wireResolveT (Z : Int → Option GobValue) (w : GobValue) : Option TGoType :=
  match getField w (strBytes ("ArrayT")) with
  | none => none
  | some aT =>
    match Z ARRAY_TYPE with
    | none => none
    | some az =>
      if gvBeq aT az then
        match getField w (strBytes ("SliceT")) with
        | none => none
        | some sT =>
          match Z SLICE_TYPE with
          | none => none
          | some sz =>
            if gvBeq sT sz then
              match getField w (strBytes ("StructT")) with
              | none => none
              | some stT =>
                match Z STRUCT_TYPE with
                | none => none
                | some stz =>
                  if gvBeq stT stz then
                    match getField w (strBytes ("MapT")) with
                    | none => none
                    | some mT =>
                      match Z MAP_TYPE with
                      | none => none
                      | some mz =>
                        if gvBeq mT mz then none
                        else
                          match commonId mT, getField mT (strBytes ("Key")),
                                getField mT (strBytes ("Elem")) with
                          | some tid, some (.int key), some (.int elem) =>
                            some (.map tid key elem)
                          | _, _, _ => none
                  else
                    match commonId stT,
                          (match getField stT (strBytes ("CommonType")) with
                           | some c =>
                             match getField c (strBytes ("Name")) with
                             | some (.str nm) => some nm
                             | _ => none
                           | _ => none),
                          (match getField stT (strBytes ("Field")) with
                           | some fv => fieldEntries fv
                           | _ => none) with
                    | some tid, some nm, some fs => some (.struct tid nm fs)
                    | _, _, _ => none
            else
              match commonId sT, getField sT (strBytes ("Elem")) with
              | some tid, some (.int elem) => some (.slice tid elem)
              | _, _ => none
      else
        match commonId aT, getField aT (strBytes ("Elem")), getField aT (strBytes ("Len")) with
        | some tid, some (.int elem), some (.int length) => some (.array tid elem length)
        | _, _, _ => none

/-- The whole of types.py `GoWireType.decode`: the inherited struct
decode (`super().decode(buf)`) over the wire-type field list followed by
the resolution step. -/
def typesWireDecode (fuel : Nat) (reg : Registry) (buf : List Nat) :
    Option (TGoType × List Nat) :=
  match structLoopD (decodeD fuel reg) fuel wireTypeFields (-1) [] buf with
  | none => none
  | some (vals, rest) =>
    match zeroFieldsD (zeroTidD fuel reg) wireTypeFields with
    | none => none
    | some zfs =>
      match wireResolveT (zeroTidD fuel reg)
              (.record (strBytes ("WireType")) (replaceFields zfs vals)) with
      | none => none
      | some t => some (t, rest)

/-! ## Facts about the varint codec -/

/-- The big-endian value denoted by the multi-byte body of an unsigned
varint. -/
def beVal (l : List Nat) : Nat := l.foldl (fun a b => a * 256 + b) 0

theorem foldl_shift_eq (l : List Nat) :
    ∀ v : Nat, l.foldl (fun n b => (n + b) * 256) (v * 256) =
      (l.foldl (fun a b => a * 256 + b) v) * 256 := by
  induction l with
  | nil => intro v; rfl
  | cons b l ih =>
    intro v
    simp only [List.foldl_cons]
    exact ih (v * 256 + b)

/-- Decoding a multi-byte unsigned varint: a prefix byte `256 - L`
followed by an `L`-byte body yields the big-endian value of the body and
leaves exactly the bytes after the body. -/
theorem goUintDecode_be (body rest : List Nat) (h1 : body ≠ []) (h2 : body.length ≤ 128) :
    goUintDecode ((256 - body.length) :: (body ++ rest)) = some (beVal body, rest) := by
  rcases body.eq_nil_or_concat' with rfl | ⟨ys, b, rfl⟩
  · exact absurd rfl h1
  · have hlen : (ys ++ [b]).length = ys.length + 1 := by simp
    rw [hlen] at h2 ⊢
    have hb0 : ¬ (256 - (ys.length + 1) < 128) := by omega
    have hL : 256 - (256 - (ys.length + 1)) = ys.length + 1 := by omega
    simp only [goUintDecode, hb0, if_false, hL]
    have hassoc : (ys ++ [b]) ++ rest = ys ++ ([b] ++ rest) := by
      rw [List.append_assoc]
    have hget : ((ys ++ [b]) ++ rest).get? (ys.length + 1 - 1) = some b := by
      rw [hassoc, Nat.add_sub_cancel, List.get?_append_right (le_refl ys.length)]
      simp
    have htake : ((ys ++ [b]) ++ rest).take (ys.length + 1 - 1) = ys := by
      rw [hassoc, Nat.add_sub_cancel]
      exact List.take_left ys ([b] ++ rest)
    have hdrop : ((ys ++ [b]) ++ rest).drop (ys.length + 1) = rest := by
      have : ys.length + 1 = (ys ++ [b]).length := by simp
      rw [this]
      exact List.drop_left (ys ++ [b]) rest
    rw [hget, htake, hdrop]
    have hsh : ys.foldl (fun n b => (n + b) * 256) 0 = beVal ys * 256 := by
      have := foldl_shift_eq ys 0
      simpa [beVal] using this
    have hbe : beVal (ys ++ [b]) = beVal ys * 256 + b := by
      simp [beVal, List.foldl_append]
    rw [hsh, hbe]

theorem natDigitsLE_zero : natDigitsLE 0 = [] := by
  rw [natDigitsLE]
  simp

theorem natDigitsLE_of_ne_zero {n : Nat} (h : n ≠ 0) :
    natDigitsLE n = n % 256 :: natDigitsLE (n / 256) := by
  rw [natDigitsLE]
  simp [h]

theorem natDigitsLE_eq_nil_iff {n : Nat} : natDigitsLE n = [] ↔ n = 0 := by
  constructor
  · intro h
    by_contra hn
    rw [natDigitsLE_of_ne_zero hn] at h
    exact List.cons_ne_nil _ _ h
  · intro h; rw [h, natDigitsLE_zero]

/-- The digits denote the number they were taken from. -/
theorem beVal_reverse_natDigitsLE (n : Nat) : beVal (natDigitsLE n).reverse = n := by
  induction n using Nat.strong_induction_on with
  | _ n ih =>
    by_cases h : n = 0
    · subst h; rw [natDigitsLE_zero]; rfl
    · rw [natDigitsLE_of_ne_zero h]
      have hlt : n / 256 < n := Nat.div_lt_self (Nat.pos_of_ne_zero h) (by norm_num)
      have := ih (n / 256) hlt
      simp only [List.reverse_cons, beVal, List.foldl_append, List.foldl_cons, List.foldl_nil]
      simp only [beVal] at this
      rw [this]
      omega

/-- The number of base-256 digits. -/
theorem natDigitsLE_length {n : Nat} (h : n ≠ 0) :
    (natDigitsLE n).length = Nat.log 256 n + 1 := by
  induction n using Nat.strong_induction_on with
  | _ n ih =>
    rw [natDigitsLE_of_ne_zero h]
    by_cases h256 : n < 256
    · have : n / 256 = 0 := Nat.div_eq_of_lt h256
      rw [this, natDigitsLE_zero]
      have : Nat.log 256 n = 0 := by
        rw [Nat.log_eq_zero_iff]; left; exact h256
      simp [this]
    · have hd : n / 256 ≠ 0 := by omega
      have hlt : n / 256 < n := Nat.div_lt_self (Nat.pos_of_ne_zero h) (by norm_num)
      have hlog : Nat.log 256 (n / 256) = Nat.log 256 n - 1 := Nat.log_div_base 256 n
      have hpos : 0 < Nat.log 256 n := Nat.log_pos (by norm_num) (by omega)
      have := ih (n / 256) hlt hd
      simp only [List.length_cons, this, hlog]
      omega

/-- The most significant digit is never zero (the encoder stops as soon
as the shifted value reaches zero). -/
theorem natDigitsLE_getLast_ne_zero {n : Nat} (h : n ≠ 0) :
    ∀ d, (natDigitsLE n).getLast? = some d → d ≠ 0 := by
  induction n using Nat.strong_induction_on with
  | _ n ih =>
    intro d hd
    rw [natDigitsLE_of_ne_zero h] at hd
    by_cases hq : n / 256 = 0
    · rw [hq, natDigitsLE_zero] at hd
      simp only [List.getLast?_singleton, Option.some.injEq] at hd
      omega
    · have hne : natDigitsLE (n / 256) ≠ [] := by
        rw [Ne, natDigitsLE_eq_nil_iff]; exact hq
      rcases hl : natDigitsLE (n / 256) with _ | ⟨b, t⟩
      · exact absurd hl hne
      · rw [hl, List.getLast?_cons_cons, ← hl] at hd
        have hlt : n / 256 < n := Nat.div_lt_self (Nat.pos_of_ne_zero h) (by norm_num)
        exact ih (n / 256) hlt hq d hd

/-- Round trip of the unsigned varint codec, with any trailing bytes
preserved.  The bound keeps the digit count within the 128 multi-byte
lengths expressible by the prefix byte; the protocol's 64-bit values stay
far below it. -/
theorem goUint_roundtrip (n : Nat) (rest : List Nat) (hn : n < 2 ^ 1024) :
    goUintDecode (goUintEncode n ++ rest) = some (n, rest) := by
  by_cases h128 : n < 128
  · simp [goUintEncode, h128, goUintDecode]
  · have hne : n ≠ 0 := by omega
    have hlen : (natDigitsLE n).length = Nat.log 256 n + 1 := natDigitsLE_length hne
    have hlog : Nat.log 256 n < 128 := by
      apply Nat.log_lt_of_lt_pow hne
      calc n < 2 ^ 1024 := hn
        _ = 256 ^ 128 := by norm_num
    have hrlen : (natDigitsLE n).reverse.length ≤ 128 := by
      rw [List.length_reverse]; omega
    have hrne : (natDigitsLE n).reverse ≠ [] := by
      simp [natDigitsLE_eq_nil_iff, hne]
    have := goUintDecode_be (natDigitsLE n).reverse rest hrne hrlen
    rw [beVal_reverse_natDigitsLE] at this
    rw [List.length_reverse] at this
    simpa [goUintEncode, h128] using this

/-- Round trip of the signed (zig-zag) varint codec. -/
theorem goInt_roundtrip (i : Int) (rest : List Nat)
    (h1 : -2 ^ 63 ≤ i) (h2 : i < 2 ^ 63) :
    goIntDecode (goIntEncode i ++ rest) = some (i, rest) := by
  by_cases hneg : i < 0
  · have henc : goIntEncode i = goUintEncode ((-i - 1) * 2 + 1).toNat := by
      simp [goIntEncode, hneg]
    have hbound : ((-i - 1) * 2 + 1).toNat < 2 ^ 1024 := by omega
    rw [henc, goIntDecode, goUint_roundtrip _ _ hbound]
    dsimp only
    have hodd : ((-i - 1) * 2 + 1).toNat % 2 = 1 := by omega
    rw [if_pos hodd]
    simp only [Option.some.injEq, Prod.mk.injEq]
    exact ⟨by omega, trivial⟩
  · have henc : goIntEncode i = goUintEncode (i * 2).toNat := by
      simp [goIntEncode, hneg]
    have hbound : (i * 2).toNat < 2 ^ 1024 := by omega
    rw [henc, goIntDecode, goUint_roundtrip _ _ hbound]
    dsimp only
    have heven : ¬ ((i * 2).toNat % 2 = 1) := by omega
    rw [if_neg heven]
    simp only [Option.some.injEq, Prod.mk.injEq]
    exact ⟨by omega, trivial⟩

theorem clog_eq_log_add_one {n : Nat} (h : n ≠ 0) :
    Nat.clog 256 (n + 1) = Nat.log 256 n + 1 := by
  apply le_antisymm
  · rw [← Nat.le_pow_iff_clog_le (by norm_num)]
    have := Nat.lt_pow_succ_log_self (b := 256) (by norm_num) n
    omega
  · by_contra hlt
    push_neg at hlt
    have hle : Nat.clog 256 (n + 1) ≤ Nat.log 256 n := by omega
    have h1 := (Nat.le_pow_iff_clog_le (b := 256) (by norm_num)
      (x := n + 1) (y := Nat.log 256 n)).2 hle
    have h2 := Nat.pow_log_le_self 256 h
    omega

/-- C4: the varint codec round-trips: for every `n < 2^64`,
`GoUint.decode(GoUint.encode(n))` returns `n` with an empty remainder,
and for every `i` with `-2^63 ≤ i < 2^63`, `GoInt.decode(GoInt.encode(i))`
returns `i` with an empty remainder. -/
theorem c4_varint_codec_roundtrip :
    (∀ n : Nat, n < 2 ^ 64 → goUintDecode (goUintEncode n) = some (n, [])) ∧
    (∀ i : Int, -2 ^ 63 ≤ i → i < 2 ^ 63 → goIntDecode (goIntEncode i) = some (i, [])) := by
  constructor
  · intro n hn
    have := goUint_roundtrip n [] (by omega)
    simpa using this
  · intro i h1 h2
    have := goInt_roundtrip i [] h1 h2
    simpa using this

theorem c4_varint_codec_roundtrip_witness :
    goUintDecode (goUintEncode 300) = some (300, []) ∧
    goIntDecode (goIntEncode (-300)) = some (-300, []) :=
  ⟨c4_varint_codec_roundtrip.1 300 (by norm_num),
   c4_varint_codec_roundtrip.2 (-300) (by norm_num) (by norm_num)⟩

/-- C8: `GoUint.encode(n)` emits exactly one byte when `n < 128` and
exactly `⌈log_256(n+1)⌉ + 1` bytes otherwise, and the multi-byte body has
no leading zero byte. -/
theorem c8_goUintEncode_length_minimal (n : Nat) :
    (n < 128 → (goUintEncode n).length = 1) ∧
    (128 ≤ n → (goUintEncode n).length = Nat.clog 256 (n + 1) + 1) ∧
    (128 ≤ n → (goUintEncode n).get? 1 ≠ some 0) := by
  refine ⟨?_, ?_, ?_⟩
  · intro h128
    simp [goUintEncode, h128]
  · intro h128
    have hne : n ≠ 0 := by omega
    rw [goUintEncode, if_neg (by omega)]
    simp only [List.length_cons, List.length_reverse]
    rw [natDigitsLE_length hne, clog_eq_log_add_one hne]
  · intro h128
    have hne : n ≠ 0 := by omega
    have hdne : natDigitsLE n ≠ [] := by rw [Ne, natDigitsLE_eq_nil_iff]; exact hne
    have hrne : (natDigitsLE n).reverse ≠ [] := by simpa using hdne
    rcases hr : (natDigitsLE n).reverse with _ | ⟨x, xs⟩
    · exact absurd hr hrne
    · have hx : (natDigitsLE n).getLast? = some x := by
        rw [← List.head?_reverse, hr]
        rfl
      have hxne : x ≠ 0 := natDigitsLE_getLast_ne_zero hne x hx
      have henc : goUintEncode n = (256 - (natDigitsLE n).length) :: x :: xs := by
        rw [goUintEncode, if_neg (by omega), hr]
      rw [henc]
      simp [hxne]

theorem c8_goUintEncode_length_minimal_witness :
    (goUintEncode 5).length = 1 ∧
    (goUintEncode 256).length = Nat.clog 256 257 + 1 ∧
    (goUintEncode 256).get? 1 ≠ some 0 :=
  ⟨(c8_goUintEncode_length_minimal 5).1 (by norm_num),
   (c8_goUintEncode_length_minimal 256).2.1 (by norm_num),
   (c8_goUintEncode_length_minimal 256).2.2 (by norm_num)⟩

/-- C9 counterexample: a byte-slice (or string) whose count exceeds the
remaining bytes does NOT fail: `GoByteSlice.decode(bytes([5, 104]))`
returns the single remaining byte and an empty remainder, although the
count asked for 5 bytes. -/
theorem c9_truncated_count_counterexample :
    goByteSliceDecode [5, 104] = some ([104], []) ∧
    goStringDecode [5, 104] = some ([104], []) :=
  ⟨rfl, rfl⟩

/-- C9 amended: when the decoded count exceeds the remaining bytes, the
byte-slice and string decoders silently return ALL remaining bytes (fewer
than `count`) and an empty remainder — Python slicing truncates and no
error is raised. -/
theorem c9_truncated_count_silent (buf rest : List Nat) (count : Nat)
    (hdec : goUintDecode buf = some (count, rest)) (hlt : rest.length < count) :
    goByteSliceDecode buf = some (rest, []) ∧ goStringDecode buf = some (rest, []) := by
  have htake : rest.take count = rest := List.take_all_of_le (by omega)
  have hdrop : rest.drop count = [] := List.drop_eq_nil_of_le (by omega)
  rw [goByteSliceDecode, goStringDecode, hdec]
  dsimp only
  rw [htake, hdrop]
  exact ⟨rfl, rfl⟩

theorem c9_truncated_count_silent_witness :
    goUintDecode [5, 104] = some (5, [104]) ∧
    goByteSliceDecode [5, 104] = some ([104], []) ∧
    goStringDecode [5, 104] = some ([104], []) :=
  ⟨rfl, (c9_truncated_count_silent [5, 104] [104] 5 rfl (by norm_num)).1,
   (c9_truncated_count_silent [5, 104] [104] 5 rfl (by norm_num)).2⟩

/-- C10: `GoUint.decode` accepts any first byte `b0 ≥ 128` (written here
as `256 - L` for a body of `L` bytes) with no upper bound on the decoded
value — bodies denoting `2^64` or more decode without error — and a body
with leading zero bytes decodes to the same integer as the minimal body. -/
theorem c10_goUintDecode_unbounded :
    (∀ body rest : List Nat, body ≠ [] → body.length ≤ 128 →
      goUintDecode ((256 - body.length) :: (body ++ rest)) = some (beVal body, rest)) ∧
    (∀ body : List Nat, beVal (0 :: body) = beVal body) ∧
    (∀ body rest : List Nat, body ≠ [] → body.length + 1 ≤ 128 →
      goUintDecode ((256 - (body.length + 1)) :: ((0 :: body) ++ rest)) =
        some (beVal body, rest)) := by
  refine ⟨goUintDecode_be, ?_, ?_⟩
  · intro body
    simp [beVal]
  · intro body rest h1 h2
    have := goUintDecode_be (0 :: body) rest (List.cons_ne_nil 0 body) (by simpa using h2)
    simpa [beVal] using this

theorem c10_goUintDecode_unbounded_witness :
    goUintDecode ((256 - (9 : Nat)) ::
        (([1, 0, 0, 0, 0, 0, 0, 0, 0] : List Nat) ++ [7])) =
      some (beVal [1, 0, 0, 0, 0, 0, 0, 0, 0], [7]) ∧
    2 ^ 64 ≤ beVal [1, 0, 0, 0, 0, 0, 0, 0, 0] ∧
    goUintDecode ((256 - ((2 : Nat) + 1)) :: ((0 :: [1, 0]) ++ [])) =
      some (beVal [1, 0], []) :=
  ⟨by
      have := c10_goUintDecode_unbounded.1 [1, 0, 0, 0, 0, 0, 0, 0, 0] [7]
        (by simp) (by norm_num)
      simpa using this,
   by decide,
   by
      have := c10_goUintDecode_unbounded.2.2 [1, 0] [] (by simp) (by norm_num)
      simpa using this⟩

/-- C7: for every supported primitive value, `Dumper.dump` produces
`unsigned_varint(len(body)) ++ body` with
`body = signed_varint(tid) ++ [0x00] ++ primitive_encode(value)`; in
particular `dump(True) = [3, 2, 0, 1]`, `dump(256) = [5, 4, 0, 254, 2, 0]`
and `dump(0.0) = [3, 8, 0, 0]`. -/
theorem c7_dump_segment_shape :
    (∀ v : PyValue,
      dump v = goUintEncode (goIntEncode (pyTid v) ++ [0] ++ pyEncode v).length ++
        (goIntEncode (pyTid v) ++ [0] ++ pyEncode v)) ∧
    dump (.bool true) = [3, 2, 0, 1] ∧
    dump (.int 256) = [5, 4, 0, 254, 2, 0] ∧
    dump (.float 0) = [3, 8, 0, 0] := by
  refine ⟨fun v => rfl, rfl, ?_, rfl⟩
  have h512 : natDigitsLE 512 = [0, 2] := by
    rw [natDigitsLE_of_ne_zero (by norm_num)]
    norm_num
    rw [natDigitsLE_of_ne_zero (by norm_num)]
    norm_num
    exact natDigitsLE_zero
  have ht4 : Int.toNat 4 = 4 := rfl
  have ht512 : Int.toNat 512 = 512 := rfl
  norm_num [dump, pyTid, pyEncode, goIntEncode, goUintEncode, INT, ht4, ht512, h512]

/-! ## Claims about the stream interpreter -/

/-- One value step of `Loader.load`: whenever the segment length and the
type id parse and the id is positive, the loader drops ONE byte of the
remaining buffer unconditionally, decodes a value of type `tid` from the
rest, and succeeds exactly when nothing is left over. -/
theorem loadFuel_value_step (f : Nat) (reg : Registry) (buf b1 b2 : List Nat)
    (len : Nat) (tid : Int) (v : GobValue) (rest : List Nat)
    (h1 : goUintDecode buf = some (len, b1))
    (h2 : goIntDecode b1 = some (tid, b2))
    (h3 : 0 < tid)
    (h4 : decodeD f reg tid (List.drop 1 b2) = some (v, rest)) :
    loadFuel (f + 1) reg buf = if rest = [] then some v else none := by
  simp only [loadFuel, h1, h2]
  rw [if_pos h3, h4]
  rcases rest with _ | ⟨r, rs⟩
  · simp
  · simp

/-- C2 (amended): `Loader.load` returns the first message's decoded value
only when the value decode consumes the ENTIRE remaining buffer; any
trailing bytes make the `assert buf == b''` ("trailing garbage") fail
instead of being ignored. -/
theorem c2_load_requires_exact_consumption (f : Nat) (reg : Registry)
    (buf b1 b2 : List Nat) (len : Nat) (tid : Int) (v : GobValue) (rest : List Nat)
    (h1 : goUintDecode buf = some (len, b1))
    (h2 : goIntDecode b1 = some (tid, b2))
    (h3 : 0 < tid)
    (h4 : decodeD f reg tid (List.drop 1 b2) = some (v, rest)) :
    loadFuel (f + 1) reg buf = if rest = [] then some v else none :=
  loadFuel_value_step f reg buf b1 b2 len tid v rest h1 h2 h3 h4

theorem c2_load_requires_exact_consumption_witness :
    loadFuel 4 bootTypes [3, 2, 0, 1, 99] = none := by
  have := c2_load_requires_exact_consumption 3 bootTypes [3, 2, 0, 1, 99]
    [2, 0, 1, 99] [0, 1, 99] 3 1 (.bool true) [99] rfl rfl (by norm_num) rfl
  simpa using this

/-- C2 counterexample: the first top-level message `[3, 2, 0, 1]` decodes
successfully to `True` on its own, yet with one trailing byte appended
both `Loader.load` and the `load` of `__init__.py` raise an assertion
error instead of returning `True` and ignoring the tail. -/
theorem c2_trailing_bytes_counterexample :
    loadFuel 4 bootTypes [3, 2, 0, 1] = some (.bool true) ∧
    initLoad [3, 2, 0, 1] = some (.bool true) ∧
    loadFuel 4 bootTypes [3, 2, 0, 1, 99] ≠ some (.bool true) ∧
    loadFuel 4 bootTypes [3, 2, 0, 1, 99] = none ∧
    initLoad [3, 2, 0, 1, 99] = none := by
  refine ⟨rfl, rfl, ?_, rfl, rfl⟩
  rw [show loadFuel 4 bootTypes [3, 2, 0, 1, 99] = none from rfl]
  simp

/-- C3 (amended): when the decode-one operation reaches a value segment
with positive type id, it skips one leading byte of the segment body
UNCONDITIONALLY — in particular also when the decoder registered for
`tid` is a struct; the struct decoder never sees that byte. -/
theorem c3_load_skips_byte_also_for_structs (f : Nat) (reg : Registry)
    (buf b1 b2 : List Nat) (len : Nat) (tid : Int) (snm : List Nat)
    (sfl : List (List Nat × Int)) (v : GobValue) (rest : List Nat)
    (h1 : goUintDecode buf = some (len, b1))
    (h2 : goIntDecode b1 = some (tid, b2))
    (h3 : 0 < tid)
    (hstruct : regLookup reg tid = some (.struct snm sfl))
    (h4 : decodeD f reg tid (List.drop 1 b2) = some (v, rest)) :
    loadFuel (f + 1) reg buf = if rest = [] then some v else none :=
  loadFuel_value_step f reg buf b1 b2 len tid v rest h1 h2 h3 h4

theorem c3_load_skips_byte_also_for_structs_witness :
    loadFuel 4 bootTypes [3, 36, 0, 0] =
      some (.record (strBytes ("CommonType"))
        [(strBytes ("Name"), .str []), (strBytes ("Id"), .int 0)]) := by
  have := c3_load_skips_byte_also_for_structs 3 bootTypes [3, 36, 0, 0]
    [36, 0, 0] [0, 0] 3 18 (strBytes ("CommonType")) commonTypeFields
    (.record (strBytes ("CommonType"))
      [(strBytes ("Name"), .str []), (strBytes ("Id"), .int 0)]) []
    rfl rfl (by norm_num) rfl rfl
  simpa using this

/-- C3 counterexample: type id 18 is registered as a struct
(`CommonType`), yet `Loader.load` of the segment `[3, 36, 0, 0]` succeeds
with the zero record — which is only possible because the leading zero
byte of the body `[0, 0]` WAS skipped: fed the unskipped body, the struct
decoder consumes a single byte and leaves `[0]` behind, which the
trailing-garbage assertion would reject. -/
theorem c3_struct_skip_counterexample :
    regLookup bootTypes COMMON_TYPE =
      some (.struct (strBytes ("CommonType")) commonTypeFields) ∧
    loadFuel 4 bootTypes [3, 36, 0, 0] =
      some (.record (strBytes ("CommonType"))
        [(strBytes ("Name"), .str []), (strBytes ("Id"), .int 0)]) ∧
    decodeD 3 bootTypes COMMON_TYPE [0, 0] =
      some (.record (strBytes ("CommonType"))
        [(strBytes ("Name"), .str []), (strBytes ("Id"), .int 0)], [0]) :=
  ⟨rfl, rfl, rfl⟩

/-- The custom-type stream of `tests/test_load_all.py::test_custom_type`:
it registers struct `Point {X: int, Y: int}` under id 65 and then
transmits two `Point` values. -/
def pointStream : List Nat :=
  [31, 255, 131, 3, 1, 1, 5, 80, 111, 105, 110, 116, 1, 255, 132, 0, 1, 2,
   1, 1, 88, 1, 4, 0, 1, 1, 89, 1, 4, 0, 0, 0, 3, 255, 132, 0, 7, 255,
   132, 1, 6, 1, 8, 0]

/-- C1: the registry built by `Loader.__init__` has NO entry for TID 22
(`field_type_slice`) — the source only carries the comment
`# 22 is slice of fieldType.` where the registration should be — while
TID 21 (`field_type`) is present; consequently the struct-registration
stream exercised by the repository's own test suite fails to decode. -/
theorem c1_field_type_slice_missing :
    regLookup bootTypes FIELD_TYPE_SLICE = none ∧
    regLookup bootTypes FIELD_TYPE =
      some (.struct (strBytes ("FieldType")) fieldTypeFields) ∧
    loadFuel 16 bootTypes pointStream = none ∧
    loadFuel 32 bootTypes pointStream = none :=
  ⟨rfl, rfl, rfl, rfl⟩

/-! ## Claims about `GoWireType.decode` of types.py -/

/-- The zero record of `CommonType`. -/
def commonZeroV : GobValue :=
  .record (strBytes ("CommonType")) [(strBytes ("Name"), .str []), (strBytes ("Id"), .int 0)]

/-- The zero record of `ArrayType`. -/
def arrayTypeZeroV : GobValue :=
  .record (strBytes ("ArrayType"))
    [(strBytes ("CommonType"), commonZeroV), (strBytes ("Elem"), .int 0),
     (strBytes ("Len"), .int 0)]

/-- The zero record of `SliceType`. -/
def sliceTypeZeroV : GobValue :=
  .record (strBytes ("SliceType"))
    [(strBytes ("CommonType"), commonZeroV), (strBytes ("Elem"), .int 0)]

/-- The zero record of `StructType` (as declared by this snapshot, whose
`Field` member has type `INT`). -/
def structTypeZeroV : GobValue :=
  .record (strBytes ("StructType"))
    [(strBytes ("CommonType"), commonZeroV), (strBytes ("Field"), .int 0)]

/-- The zero record of `MapType`. -/
def mapTypeZeroV : GobValue :=
  .record (strBytes ("MapType"))
    [(strBytes ("CommonType"), commonZeroV), (strBytes ("Key"), .int 0),
     (strBytes ("Elem"), .int 0)]

/-- A decoded `WireType` record with the four sub-descriptor slots. -/
def mkWireRecord (wname : List Nat) (aT sT stT mT : GobValue) : GobValue :=
  .record wname
    [(strBytes ("ArrayT"), aT), (strBytes ("SliceT"), sT),
     (strBytes ("StructT"), stT), (strBytes ("MapT"), mT)]

theorem getField_mkWire_arrayT (wname : List Nat) (aT sT stT mT : GobValue) :
    getField (mkWireRecord wname aT sT stT mT) (strBytes ("ArrayT")) = some aT := rfl

theorem getField_mkWire_sliceT (wname : List Nat) (aT sT stT mT : GobValue) :
    getField (mkWireRecord wname aT sT stT mT) (strBytes ("SliceT")) = some sT := rfl

theorem getField_mkWire_structT (wname : List Nat) (aT sT stT mT : GobValue) :
    getField (mkWireRecord wname aT sT stT mT) (strBytes ("StructT")) = some stT := rfl

theorem getField_mkWire_mapT (wname : List Nat) (aT sT stT mT : GobValue) :
    getField (mkWireRecord wname aT sT stT mT) (strBytes ("MapT")) = some mT := rfl

/-- C6 (amended): the resolver of types.py `GoWireType.decode` fails
("cannot handle wire type") exactly when ALL FOUR sub-fields equal their
zero values; otherwise the FIRST non-default sub-field in the order
`ArrayT`, `SliceT`, `StructT`, `MapT` determines the decoder built — a
descriptor with more than one non-default sub-field is NOT rejected.
With exactly one non-default sub-field this returns the corresponding
concrete decoder, as the claim states. -/
theorem c6_wire_resolver_first_match (Z : Int → Option GobValue)
    (wname : List Nat) (aT sT stT mT az sz stz mz : GobValue)
    (hz17 : Z ARRAY_TYPE = some az) (hz19 : Z SLICE_TYPE = some sz)
    (hz20 : Z STRUCT_TYPE = some stz) (hz23 : Z MAP_TYPE = some mz) :
    (gvBeq aT az = true → gvBeq sT sz = true → gvBeq stT stz = true →
      gvBeq mT mz = true →
      wireResolveT Z (mkWireRecord wname aT sT stT mT) = none) ∧
    (∀ ti e l, gvBeq aT az = false →
      commonId aT = some ti →
      getField aT (strBytes ("Elem")) = some (.int e) →
      getField aT (strBytes ("Len")) = some (.int l) →
      wireResolveT Z (mkWireRecord wname aT sT stT mT) = some (.array ti e l)) ∧
    (∀ ti e, gvBeq aT az = true → gvBeq sT sz = false →
      commonId sT = some ti →
      getField sT (strBytes ("Elem")) = some (.int e) →
      wireResolveT Z (mkWireRecord wname aT sT stT mT) = some (.slice ti e)) ∧
    (∀ ti nm fs c fv, gvBeq aT az = true → gvBeq sT sz = true →
      gvBeq stT stz = false →
      commonId stT = some ti →
      getField stT (strBytes ("CommonType")) = some c →
      getField c (strBytes ("Name")) = some (.str nm) →
      getField stT (strBytes ("Field")) = some fv →
      fieldEntries fv = some fs →
      wireResolveT Z (mkWireRecord wname aT sT stT mT) = some (.struct ti nm fs)) ∧
    (∀ ti k e, gvBeq aT az = true → gvBeq sT sz = true → gvBeq stT stz = true →
      gvBeq mT mz = false →
      commonId mT = some ti →
      getField mT (strBytes ("Key")) = some (.int k) →
      getField mT (strBytes ("Elem")) = some (.int e) →
      wireResolveT Z (mkWireRecord wname aT sT stT mT) = some (.map ti k e)) := by
  refine ⟨?_, ?_, ?_, ?_, ?_⟩
  · intro h1 h2 h3 h4
    simp only [wireResolveT, getField_mkWire_arrayT, getField_mkWire_sliceT,
      getField_mkWire_structT, getField_mkWire_mapT, hz17, hz19, hz20, hz23,
      h1, h2, h3, h4, if_true]
  · intro ti e l h1 hc he hl
    simp only [wireResolveT, getField_mkWire_arrayT, hz17, h1, Bool.false_eq_true,
      if_false, hc, he, hl]
  · intro ti e h1 h2 hc he
    simp only [wireResolveT, getField_mkWire_arrayT, getField_mkWire_sliceT,
      hz17, hz19, h1, h2, if_true, Bool.false_eq_true, if_false, hc, he]
  · intro ti nm fs c fv h1 h2 h3 hc hct hcn hf hfe
    simp only [wireResolveT, getField_mkWire_arrayT, getField_mkWire_sliceT,
      getField_mkWire_structT, hz17, hz19, hz20, h1, h2, h3, if_true,
      Bool.false_eq_true, if_false, hc, hct, hcn, hf, hfe]
  · intro ti k e h1 h2 h3 h4 hc hk he
    simp only [wireResolveT, getField_mkWire_arrayT, getField_mkWire_sliceT,
      getField_mkWire_structT, getField_mkWire_mapT, hz17, hz19, hz20, hz23,
      h1, h2, h3, h4, if_true, Bool.false_eq_true, if_false, hc, hk, he]

theorem c6_wire_resolver_first_match_witness :
    wireResolveT (zeroTidD 8 bootTypes)
      (mkWireRecord (strBytes ("WireType"))
        (.record (strBytes ("ArrayType"))
          [(strBytes ("CommonType"), commonZeroV), (strBytes ("Elem"), .int 2),
           (strBytes ("Len"), .int 3)])
        sliceTypeZeroV structTypeZeroV mapTypeZeroV) = some (.array 0 2 3) :=
  (c6_wire_resolver_first_match (zeroTidD 8 bootTypes) (strBytes ("WireType"))
      _ _ _ _ _ _ _ _ rfl rfl rfl rfl).2.1 0 2 3 rfl rfl rfl rfl

/-- C6 counterexample: a `wire_type` descriptor whose `ArrayT` AND
`SliceT` are BOTH non-default does not fail: `GoWireType.decode` returns
the array decoder of the first match.  The body `[1,3,2,0,1,2,4,0,0]`
sets `ArrayT.Len = 1` and `SliceT.Elem = 2`; both decoded sub-records
differ from their zero values, yet the decode succeeds. -/
theorem c6_multiple_nondefault_counterexample :
    typesWireDecode 8 bootTypes [1, 3, 2, 0, 1, 2, 4, 0, 0] =
      some (.array 0 0 1, []) ∧
    decodeD 8 bootTypes ARRAY_TYPE [3, 2, 0] =
      some (.record (strBytes ("ArrayType"))
        [(strBytes ("CommonType"), commonZeroV), (strBytes ("Elem"), .int 0),
         (strBytes ("Len"), .int 1)], []) ∧
    decodeD 8 bootTypes SLICE_TYPE [2, 4, 0] =
      some (.record (strBytes ("SliceType"))
        [(strBytes ("CommonType"), commonZeroV), (strBytes ("Elem"), .int 2)], []) ∧
    zeroTidD 8 bootTypes ARRAY_TYPE = some arrayTypeZeroV ∧
    zeroTidD 8 bootTypes SLICE_TYPE = some sliceTypeZeroV ∧
    gvBeq (.record (strBytes ("ArrayType"))
        [(strBytes ("CommonType"), commonZeroV), (strBytes ("Elem"), .int 0),
         (strBytes ("Len"), .int 1)]) arrayTypeZeroV = false ∧
    gvBeq (.record (strBytes ("SliceType"))
        [(strBytes ("CommonType"), commonZeroV), (strBytes ("Elem"), .int 2)])
      sliceTypeZeroV = false :=
  ⟨rfl, rfl, rfl, rfl, rfl, rfl, rfl⟩

/-! ## Claim C5: the field-delta protocol and zero-valued fields -/

/-- A well-formed field-delta body for the strictly ascending assignment
list `A` (0-indexed field index, encoded value bytes, decoded value): for
each entry the varint of the index delta from the previous field, then
the value bytes; a zero delta closes the struct. -/
def buildBody (prev : Int) : List (Nat × List Nat × GobValue) → List Nat
  | [] => [0]
  | e :: rest => goUintEncode ((e.1 : Int) - prev).toNat ++ (e.2.1 ++ buildBody (e.1 : Int) rest)

/-- Strictly ascending field indices, all above `prev`. -/
def ascending (prev : Int) : List (Nat × List Nat × GobValue) → Prop
  | [] => True
  | e :: rest => prev < (e.1 : Int) ∧ ascending (e.1 : Int) rest

/-- The name a field index resolves to. -/
def nameAt (fields : List (List Nat × Int)) (i : Nat) : List Nat :=
  ((fields.get? i).map Prod.fst).getD []

/-- The `values` dictionary a well-formed body produces: one entry per
assignment, keyed by the assigned field's name. -/
def assignedVals (fields : List (List Nat × Int)) (A : List (Nat × List Nat × GobValue)) :
    List (List Nat × GobValue) :=
  A.map (fun e => (nameAt fields e.1, e.2.2))

theorem ascending_weaken {q : Int} {A : List (Nat × List Nat × GobValue)} (p : Int)
    (h : ascending q A) (hpq : p ≤ q) : ascending p A := by
  cases A with
  | nil => trivial
  | cons e rest => exact ⟨lt_of_le_of_lt hpq h.1, h.2⟩

theorem ascending_gt {prev : Int} {A : List (Nat × List Nat × GobValue)}
    (h : ascending prev A) : ∀ e ∈ A, prev < (e.1 : Int) := by
  induction A generalizing prev with
  | nil => intro e he; exact absurd he (List.not_mem_nil e)
  | cons a rest ih =>
    intro e he
    rcases List.mem_cons.1 he with rfl | hmem
    · exact h.1
    · exact lt_trans h.1 (ih h.2 e hmem)

theorem ascending_filter {prev : Int} {A : List (Nat × List Nat × GobValue)}
    (p : Nat × List Nat × GobValue → Bool)
    (h : ascending prev A) : ascending prev (A.filter p) := by
  induction A generalizing prev with
  | nil => trivial
  | cons a rest ih =>
    by_cases hp : p a
    · rw [List.filter_cons_of_pos hp]
      exact ⟨h.1, ih h.2⟩
    · rw [List.filter_cons_of_neg hp]
      exact ascending_weaken prev (ih h.2) (le_of_lt h.1)

theorem lookup_append (k : List Nat) (l1 l2 : List (List Nat × GobValue)) :
    List.lookup k (l1 ++ l2) =
      (List.lookup k l1).orElse (fun _ => List.lookup k l2) := by
  induction l1 with
  | nil => rfl
  | cons a l ih =>
    rcases a with ⟨a1, a2⟩
    simp only [List.cons_append, List.lookup]
    cases hka : k == a1
    · simpa using ih
    · rfl

theorem lookup_eq_none_of_not_mem (k : List Nat) (l : List (List Nat × GobValue))
    (h : k ∉ l.map Prod.fst) : List.lookup k l = none := by
  induction l with
  | nil => rfl
  | cons a l ih =>
    rcases a with ⟨a1, a2⟩
    simp only [List.map_cons, List.mem_cons] at h
    push_neg at h
    simp only [List.lookup, beq_eq_false_iff_ne.mpr h.1]
    exact ih h.2

theorem lookup_of_mem_nodup (k : List Nat) (z : GobValue) (l : List (List Nat × GobValue))
    (hmem : (k, z) ∈ l) (hnd : (l.map Prod.fst).Nodup) : List.lookup k l = some z := by
  induction l with
  | nil => exact absurd hmem (List.not_mem_nil _)
  | cons a l ih =>
    rcases a with ⟨a1, a2⟩
    simp only [List.map_cons, List.nodup_cons] at hnd
    rcases List.mem_cons.1 hmem with heq | hmem'
    · cases heq
      simp [List.lookup]
    · have hk : k ≠ a1 := by
        intro rfl
        exact hnd.1 (List.mem_map.2 ⟨(k, z), hmem', rfl⟩)
      simp only [List.lookup, beq_eq_false_iff_ne.mpr hk]
      exact ih hmem' hnd.2

theorem dictInsert_append (vals : List (List Nat × GobValue)) (k : List Nat) (v : GobValue)
    (h : List.lookup k vals = none) : dictInsert vals k v = vals ++ [(k, v)] := by
  induction vals with
  | nil => rfl
  | cons a l ih =>
    rcases a with ⟨a1, a2⟩
    simp only [List.lookup] at h
    cases hka : k == a1
    · rw [hka] at h
      have hak : (a1 == k) = false := by
        rw [beq_eq_false_iff_ne] at hka ⊢
        exact fun hh => hka hh.symm
      simp only [dictInsert, hak, List.cons_append, ih h]
      simp
    · rw [hka] at h
      exact absurd h (by simp)

theorem nodup_get?_inj (l : List (List Nat)) (hl : l.Nodup) (i j : Nat) (x : List Nat)
    (hi : l.get? i = some x) (hj : l.get? j = some x) : i = j := by
  rw [List.get?_eq_some] at hi hj
  obtain ⟨hi1, hi2⟩ := hi
  obtain ⟨hj1, hj2⟩ := hj
  have hgg : l.get ⟨i, hi1⟩ = l.get ⟨j, hj1⟩ := by rw [hi2, hj2]
  have hfin := (List.Nodup.get_inj_iff hl).1 hgg
  exact congrArg Fin.val hfin

theorem nameAt_inj (fields : List (List Nat × Int))
    (hnn : (fields.map Prod.fst).Nodup) (i j : Nat)
    (hi : (fields.get? i).isSome) (hj : (fields.get? j).isSome)
    (hne : i ≠ j) : nameAt fields i ≠ nameAt fields j := by
  obtain ⟨⟨nmi, ti⟩, hgi⟩ := Option.isSome_iff_exists.1 hi
  obtain ⟨⟨nmj, tj⟩, hgj⟩ := Option.isSome_iff_exists.1 hj
  have h1 : (fields.map Prod.fst).get? i = some nmi := by rw [List.get?_map, hgi]; rfl
  have h2 : (fields.map Prod.fst).get? j = some nmj := by rw [List.get?_map, hgj]; rfl
  intro heq
  simp only [nameAt] at heq
  rw [hgi, hgj] at heq
  have hnm : nmi = nmj := by simpa using heq
  exact hne (nodup_get?_inj _ hnn i j nmi h1 (hnm ▸ h2))

theorem zeroFieldsD_names (Z : Int → Option GobValue) :
    ∀ (fields : List (List Nat × Int)) (zfs : List (List Nat × GobValue)),
      zeroFieldsD Z fields = some zfs → zfs.map Prod.fst = fields.map Prod.fst := by
  intro fields
  induction fields with
  | nil =>
    intro zfs h
    simp only [zeroFieldsD, Option.some.injEq] at h
    subst h
    rfl
  | cons a rest ih =>
    rcases a with ⟨nm, tid⟩
    intro zfs h
    simp only [zeroFieldsD] at h
    rcases hZ : Z tid with _ | z
    · rw [hZ] at h; exact absurd h (by simp)
    · rw [hZ] at h
      rcases hrest : zeroFieldsD Z rest with _ | zs
      · rw [hrest] at h; exact absurd h (by simp)
      · rw [hrest] at h
        simp only [Option.some.injEq] at h
        subst h
        simp [ih zs hrest]

theorem assigned_names_nodup (fields : List (List Nat × Int))
    (hnn : (fields.map Prod.fst).Nodup) :
    ∀ (A : List (Nat × List Nat × GobValue)) (prev : Int),
      ascending prev A →
      (∀ e ∈ A, (fields.get? e.1).isSome) →
      ((assignedVals fields A).map Prod.fst).Nodup := by
  intro A
  induction A with
  | nil => intro prev _ _; simp [assignedVals]
  | cons e A' ih =>
    intro prev hasc hsome
    simp only [assignedVals, List.map_cons, List.map_map, List.nodup_cons] at ih ⊢
    constructor
    · intro hmem
      simp only [List.mem_map, Function.comp] at hmem
      obtain ⟨e', he', heq⟩ := hmem
      have hgt : (e.1 : Int) < (e'.1 : Int) := ascending_gt hasc.2 e' he'
      exact nameAt_inj fields hnn e'.1 e.1
        (hsome e' (List.mem_cons_of_mem _ he')) (hsome e (List.mem_cons_self _ _))
        (by omega) heq
    · have := ih (e.1 : Int) hasc.2 (fun e' he' => hsome e' (List.mem_cons_of_mem _ he'))
      simpa [assignedVals, List.map_map] using this

theorem structLoopD_build (D : Int → List Nat → Option (GobValue × List Nat))
    (fields : List (List Nat × Int)) (hflen : fields.length ≤ 2 ^ 64)
    (hnn : (fields.map Prod.fst).Nodup) :
    ∀ (A : List (Nat × List Nat × GobValue)) (prev : Int)
      (vals : List (List Nat × GobValue)) (lf : Nat) (rest : List Nat),
      A.length < lf →
      -1 ≤ prev →
      ascending prev A →
      (∀ e ∈ A, ∃ nm tid, fields.get? e.1 = some (nm, tid) ∧
        ∀ r, D tid (e.2.1 ++ r) = some (e.2.2, r)) →
      (∀ e ∈ A, List.lookup (nameAt fields e.1) vals = none) →
      structLoopD D lf fields prev vals (buildBody prev A ++ rest) =
        some (vals ++ assignedVals fields A, rest) := by
  intro A
  induction A with
  | nil =>
    intro prev vals lf rest hlf _ _ _ _
    obtain ⟨k, rfl⟩ : ∃ k, lf = k + 1 := ⟨lf - 1, by omega⟩
    show structLoopD D (k + 1) fields prev vals (0 :: rest) = _
    simp [structLoopD, goUintDecode, assignedVals]
  | cons e A' ih =>
    rcases e with ⟨i, chunk, v⟩
    intro prev vals lf rest hlf hprev hasc hdec hfresh
    obtain ⟨k, rfl⟩ : ∃ k, lf = k + 1 := ⟨lf - 1, by omega⟩
    obtain ⟨hlt, hasc'⟩ := hasc
    obtain ⟨nm, tid, hget, hD⟩ := hdec _ (List.mem_cons_self _ _)
    dsimp only at hget hD
    have hi_lt : i < fields.length := by
      by_contra hge
      rw [List.get?_eq_none.2 (by omega)] at hget
      exact Option.noConfusion hget
    have hdbound : ((i : Int) - prev).toNat < 2 ^ 1024 := by omega
    have hbody : buildBody prev ((i, chunk, v) :: A') ++ rest =
        goUintEncode ((i : Int) - prev).toNat ++
          (chunk ++ (buildBody (i : Int) A' ++ rest)) := by
      simp [buildBody, List.append_assoc]
    rw [hbody]
    simp only [structLoopD]
    rw [goUint_roundtrip _ _ hdbound]
    dsimp only
    rw [if_neg (by omega : ¬ (((i : Int) - prev).toNat = 0))]
    have hco : prev + ((((i : Int) - prev).toNat : Nat) : Int) = (i : Int) := by omega
    rw [hco, if_neg (by omega : ¬ ((i : Int) < 0))]
    have htn : ((i : Int)).toNat = i := by omega
    rw [htn, hget]
    dsimp only
    rw [hD (buildBody (i : Int) A' ++ rest)]
    dsimp only
    have hnmAt : nameAt fields i = nm := by
      simp only [nameAt]
      rw [hget]
      rfl
    have hfreshHead : List.lookup nm vals = none := by
      have := hfresh _ (List.mem_cons_self _ _)
      rwa [hnmAt] at this
    have happend : dictInsert vals nm v = vals ++ [(nm, v)] :=
      dictInsert_append vals nm v hfreshHead
    have hfresh' : ∀ e' ∈ A', List.lookup (nameAt fields e'.1) (dictInsert vals nm v) = none := by
      intro e' he'
      obtain ⟨nm', tid', hget', _⟩ := hdec _ (List.mem_cons_of_mem _ he')
      have hgt : (i : Int) < (e'.1 : Int) := ascending_gt hasc' e' he'
      have hne : nameAt fields e'.1 ≠ nm := by
        rw [← hnmAt]
        exact nameAt_inj fields hnn e'.1 i (by rw [hget']; rfl) (by rw [hget]; rfl) (by omega)
      rw [happend, lookup_append, hfresh _ (List.mem_cons_of_mem _ he')]
      have hb : ((nameAt fields e'.1) == nm) = false := beq_eq_false_iff_ne.mpr hne
      simp [List.lookup, hb]
    rw [ih (i : Int) (dictInsert vals nm v) k rest (by simpa using Nat.lt_of_succ_lt_succ hlf)
      (by omega) hasc'
      (fun e' he' => hdec _ (List.mem_cons_of_mem _ he')) hfresh']
    rw [happend]
    simp [assignedVals, hnmAt, List.append_assoc]

theorem assigned_lookup_filter
    (fields : List (List Nat × Int)) (zfs : List (List Nat × GobValue))
    (hzn : (zfs.map Prod.fst).Nodup) :
    ∀ (A : List (Nat × List Nat × GobValue)) (p : Nat × List Nat × GobValue → Bool),
      ((assignedVals fields A).map Prod.fst).Nodup →
      (∀ e ∈ A, p e = false → List.lookup (nameAt fields e.1) zfs = some e.2.2) →
      ∀ (k : List Nat) (z : GobValue), (k, z) ∈ zfs →
        (match List.lookup k (assignedVals fields (A.filter p)) with
          | some v => v
          | none => z) =
        (match List.lookup k (assignedVals fields A) with
          | some v => v
          | none => z) := by
  intro A
  induction A with
  | nil => intro p _ _ k z _; rfl
  | cons e A' ih =>
    intro p hnodupA hdrop k z hkz
    simp only [assignedVals, List.map_cons, List.map_map, List.nodup_cons] at hnodupA
    have hnodup' : ((assignedVals fields A').map Prod.fst).Nodup := by
      simpa [assignedVals, List.map_map] using hnodupA.2
    have hdrop' : ∀ e' ∈ A', p e' = false →
        List.lookup (nameAt fields e'.1) zfs = some e'.2.2 :=
      fun e' he' hp' => hdrop e' (List.mem_cons_of_mem _ he') hp'
    by_cases hp : p e = true
    · rw [List.filter_cons_of_pos hp]
      simp only [assignedVals, List.map_cons, List.lookup]
      cases hk : (k == nameAt fields e.1)
      · simpa [assignedVals] using ih p hnodup' hdrop' k z hkz
      · rfl
    · have hp' : p e = false := by simpa using hp
      rw [List.filter_cons_of_neg (by simp [hp'])]
      simp only [assignedVals, List.map_cons, List.lookup]
      cases hk : (k == nameAt fields e.1)
      · simpa [assignedVals] using ih p hnodup' hdrop' k z hkz
      · have hkeq : k = nameAt fields e.1 := by
          rwa [beq_iff_eq] at hk
        have hzk : List.lookup k zfs = some z := lookup_of_mem_nodup k z zfs hkz hzn
        have hze : List.lookup (nameAt fields e.1) zfs = some e.2.2 :=
          hdrop e (List.mem_cons_self _ _) hp'
        have hv : z = e.2.2 := by
          rw [hkeq] at hzk
          rw [hzk] at hze
          exact (Option.some.injEq .. ▸ hze)
        have hnone : List.lookup k (assignedVals fields (A'.filter p)) = none := by
          apply lookup_eq_none_of_not_mem
          intro hmem
          apply hnodupA.1
          simp only [assignedVals, List.map_map, List.mem_map] at hmem
          obtain ⟨e', he', heq⟩ := hmem
          rw [hkeq] at heq
          exact List.mem_map.2 ⟨e', List.mem_of_mem_filter he', heq⟩
        simp only [assignedVals] at hnone
        rw [hnone]
        simp [hv]

/-- C5: for every struct decoder (any field list with distinct names, any
field decode function `D`, any zero resolution `Z`), a well-formed
field-delta body and the body obtained from it by omitting any set of
assignments whose transmitted value equals the field's zero value decode
(via `GoStruct.decode`) to the SAME record, in which every unassigned
field carries its zero value (`replaceFields zfs …` applies the collected
values on top of the field-wise zeros). -/
theorem c5_struct_field_delta_zero_omission
    (D : Int → List Nat → Option (GobValue × List Nat)) (Z : Int → Option GobValue)
    (sname : List Nat) (fields : List (List Nat × Int))
    (lf : Nat) (A : List (Nat × List Nat × GobValue))
    (p : Nat × List Nat × GobValue → Bool) (rest : List Nat)
    (zfs : List (List Nat × GobValue))
    (hflen : fields.length ≤ 2 ^ 64)
    (hnn : (fields.map Prod.fst).Nodup)
    (hlf : A.length < lf)
    (hasc : ascending (-1) A)
    (hdec : ∀ e ∈ A, ∃ nm tid, fields.get? e.1 = some (nm, tid) ∧
      ∀ r, D tid (e.2.1 ++ r) = some (e.2.2, r))
    (hz : zeroFieldsD Z fields = some zfs)
    (hdrop : ∀ e ∈ A, p e = false →
      List.lookup (nameAt fields e.1) zfs = some e.2.2) :
    decodeTypeStep lf D Z (.struct sname fields) (buildBody (-1) A ++ rest) =
      some (.record sname (replaceFields zfs (assignedVals fields A)), rest) ∧
    decodeTypeStep lf D Z (.struct sname fields) (buildBody (-1) (A.filter p) ++ rest) =
      some (.record sname (replaceFields zfs (assignedVals fields A)), rest) := by
  have hzn : (zfs.map Prod.fst).Nodup := by
    rw [zeroFieldsD_names Z fields zfs hz]
    exact hnn
  have hsome : ∀ e ∈ A, (fields.get? e.1).isSome := by
    intro e he
    obtain ⟨nm, tid, hg, _⟩ := hdec e he
    rw [hg]
    rfl
  have hnodupA : ((assignedVals fields A).map Prod.fst).Nodup :=
    assigned_names_nodup fields hnn A (-1) hasc hsome
  have hrepl : replaceFields zfs (assignedVals fields (A.filter p)) =
      replaceFields zfs (assignedVals fields A) := by
    unfold replaceFields
    apply List.map_eq_map_iff.mpr
    intro nz hnz
    rcases nz with ⟨k, z⟩
    have := assigned_lookup_filter fields zfs hzn A p hnodupA hdrop k z hnz
    simp only [Prod.mk.injEq]
    exact ⟨trivial, this⟩
  constructor
  · simp only [decodeTypeStep]
    rw [structLoopD_build D fields hflen hnn A (-1) [] lf rest hlf (by norm_num)
      hasc hdec (fun e he => rfl)]
    dsimp only
    rw [hz]
    dsimp only [List.nil_append]
  · simp only [decodeTypeStep]
    rw [structLoopD_build D fields hflen hnn (A.filter p) (-1) [] lf rest
      (lt_of_le_of_lt (List.length_filter_le p A) hlf) (by norm_num)
      (ascending_filter p hasc)
      (fun e he => hdec e (List.mem_of_mem_filter he))
      (fun e he => rfl)]
    dsimp only
    rw [hz]
    dsimp only [List.nil_append]
    rw [hrepl]

/-- Keep an assignment exactly when its transmitted value is not the
integer zero (used to drop zero-valued fields in the C5 witness). -/
def c5pred : Nat × List Nat × GobValue → Bool :=
  fun e => match e.2.2 with
  | .int 0 => false
  | _ => true

theorem c5_struct_field_delta_zero_omission_witness :
    decodeTypeStep 4 (decodeD 4 bootTypes) (zeroTidD 4 bootTypes)
      (.struct (strBytes ("Point")) [(strBytes ("X"), 2), (strBytes ("Y"), 2)])
      (buildBody (-1) [(0, [0], .int 0), (1, [10], .int 5)] ++ [9]) =
      some (.record (strBytes ("Point"))
        [(strBytes ("X"), .int 0), (strBytes ("Y"), .int 5)], [9]) ∧
    decodeTypeStep 4 (decodeD 4 bootTypes) (zeroTidD 4 bootTypes)
      (.struct (strBytes ("Point")) [(strBytes ("X"), 2), (strBytes ("Y"), 2)])
      (buildBody (-1) ([(0, [0], .int 0), (1, [10], .int 5)].filter c5pred) ++ [9]) =
      some (.record (strBytes ("Point"))
        [(strBytes ("X"), .int 0), (strBytes ("Y"), .int 5)], [9]) := by
  have h := c5_struct_field_delta_zero_omission
    (decodeD 4 bootTypes) (zeroTidD 4 bootTypes)
    (strBytes ("Point")) [(strBytes ("X"), 2), (strBytes ("Y"), 2)]
    4 [(0, [0], .int 0), (1, [10], .int 5)] c5pred [9]
    [(strBytes ("X"), .int 0), (strBytes ("Y"), .int 0)]
    (by norm_num)
    (by decide)
    (by norm_num)
    (by simp only [ascending]; exact ⟨by norm_num, by norm_num, trivial⟩)
    (by
      intro e he
      rcases List.mem_cons.1 he with rfl | he'
      · exact ⟨strBytes ("X"), 2, rfl, fun r => rfl⟩
      · rcases List.mem_cons.1 he' with rfl | he''
        · exact ⟨strBytes ("Y"), 2, rfl, fun r => rfl⟩
        · exact absurd he'' (List.not_mem_nil _))
    rfl
    (by
      intro e he hp
      rcases List.mem_cons.1 he with rfl | he'
      · rfl
      · rcases List.mem_cons.1 he' with rfl | he''
        · exact absurd hp (by decide)
        · exact absurd he'' (List.not_mem_nil _))
  exact ⟨h.1, h.2⟩
